import Mathlib

/-!
# Verification of the catch-it multi-leg itinerary engine

Shallow embedding of the route-normalization, itinerary-summarization and
leg-planning logic of the repository (`src/api/google/routes.ts` and the
`onSearch` planner loop of `src/screens/ResultsScreen.tsx`), together with
proofs settling the frozen claims about the natural-language specification.

Modelling conventions:
* JavaScript `undefined`/`null` is `Option.none`; the nullish-coalescing
  operator `??` is `Option.getD` / `<|>` (it does not treat `""` or `0` as
  missing), while JavaScript *truthiness* tests on strings and numbers are
  modelled explicitly (`""` and `0` are falsy).
* Timestamps are epoch milliseconds (`Int`).  The JavaScript `Date` ↔
  ISO-8601 string codec (`new Date(iso).getTime()` / `Date.toISOString()`)
  is modelled by an injective rendering `isoOfMs` and a parser
  `parseDateMs`; strings outside the codec's image parse to `none`
  (JavaScript: `NaN`, an invalid instant).
* JavaScript numbers are idealized as exact integers (`Nat`/`Int`); the
  program only adds, subtracts and compares timestamps and second counts,
  where float64 arithmetic is exact for every realistic magnitude.
-/

namespace CatchIt

/-! ## Decimal digit codec

Support for the epoch-milliseconds ↔ timestamp-string model and for the
duration parser: decimal digit characters and their numeric value. -/

/-- The decimal digit character for a single digit value (values ≥ 9 all
render as '9'; the encoder only ever passes values < 10). -/
def digitChar (d : Nat) : Char :=
  match d with
  | 0 => '0' | 1 => '1' | 2 => '2' | 3 => '3' | 4 => '4'
  | 5 => '5' | 6 => '6' | 7 => '7' | 8 => '8' | _ => '9'

/-- Numeric value of a decimal digit character. -/
def digitVal (c : Char) : Nat := c.toNat - 48

/-- Value of a big-endian list of decimal digit characters (the usual
reading of a digit string, leading zeros allowed). -/
def decimalValue (ds : List Char) : Nat :=
  ds.foldl (fun a c => 10 * a + digitVal c) 0

/-- Little-endian digit values of a natural number (empty for 0). -/
def natDigitsRev (n : Nat) : List Nat :=
  if h : n = 0 then []
  else (n % 10) :: natDigitsRev (n / 10)
decreasing_by exact Nat.div_lt_self (Nat.pos_of_ne_zero h) (by norm_num)

/-- Big-endian decimal digit characters of a natural number. -/
def natChars (n : Nat) : List Char :=
  if n = 0 then ['0'] else ((natDigitsRev n).map digitChar).reverse

/-- Decode a big-endian digit-character list; `none` unless the list is a
non-empty all-digit list. -/
def decodeNatChars (ds : List Char) : Option Nat :=
  if ds ≠ [] ∧ ds.all Char.isDigit then some (decimalValue ds) else none

theorem digitVal_digitChar (d : Nat) (h : d < 10) : digitVal (digitChar d) = d := by
  interval_cases d <;> rfl

theorem isDigit_digitChar (d : Nat) : (digitChar d).isDigit = true := by
  unfold digitChar
  split <;> rfl

/-- Value of the little-endian digit list, for the roundtrip proof. -/
def decimalValueRev (ds : List Nat) : Nat :=
  ds.foldr (fun d a => d + 10 * a) 0

theorem decimalValueRev_natDigitsRev (n : Nat) : decimalValueRev (natDigitsRev n) = n := by
  induction n using Nat.strong_induction_on with
  | _ n ih =>
    unfold natDigitsRev
    by_cases h : n = 0
    · simp [h, decimalValueRev]
    · simp only [h, dite_false, decimalValueRev, List.foldr]
      have hlt : n / 10 < n := Nat.div_lt_self (Nat.pos_of_ne_zero h) (by norm_num)
      have hrec := ih (n / 10) hlt
      unfold decimalValueRev at hrec
      rw [hrec]
      omega

theorem decimalValue_foldl_init (b : List Char) : ∀ init : Nat,
    b.foldl (fun a c => 10 * a + digitVal c) init = init * 10 ^ b.length + decimalValue b := by
  induction b with
  | nil => intro init; simp [decimalValue]
  | cons c cs ih =>
    intro init
    simp only [List.foldl_cons, decimalValue, List.length_cons]
    rw [ih, ih (10 * 0 + digitVal c)]
    ring

theorem decimalValue_append (a b : List Char) :
    decimalValue (a ++ b) = decimalValue a * 10 ^ b.length + decimalValue b := by
  rw [decimalValue, List.foldl_append, decimalValue_foldl_init]
  rfl

theorem decimalValue_singleton (c : Char) : decimalValue [c] = digitVal c := by
  simp [decimalValue]

theorem decimalValue_map_digitChar_reverse (ds : List Nat) (h : ∀ d ∈ ds, d < 10) :
    decimalValue ((ds.map digitChar).reverse) = decimalValueRev ds := by
  induction ds with
  | nil => rfl
  | cons d ds ih =>
    have hd : d < 10 := h d (List.mem_cons_self d ds)
    have ihv := ih (fun x hx => h x (List.mem_cons_of_mem d hx))
    simp only [List.map_cons, List.reverse_cons]
    rw [decimalValue_append, ihv, decimalValue_singleton, digitVal_digitChar d hd]
    have : decimalValueRev (d :: ds) = d + 10 * decimalValueRev ds := rfl
    rw [this]
    simp only [List.length_singleton]
    omega

theorem natDigitsRev_lt (n : Nat) : ∀ d ∈ natDigitsRev n, d < 10 := by
  induction n using Nat.strong_induction_on with
  | _ n ih =>
    unfold natDigitsRev
    by_cases h : n = 0
    · simp [h]
    · simp only [h, dite_false, List.mem_cons]
      rintro d (rfl | hd)
      · exact Nat.mod_lt n (by norm_num)
      · exact ih (n / 10) (Nat.div_lt_self (Nat.pos_of_ne_zero h) (by norm_num)) d hd

theorem natChars_ne_nil (n : Nat) : natChars n ≠ [] := by
  unfold natChars
  split
  · simp
  · simp only [ne_eq, List.reverse_eq_nil_iff, List.map_eq_nil_iff]
    unfold natDigitsRev
    simp_all

theorem natChars_all_digit (n : Nat) : ∀ c ∈ natChars n, c.isDigit = true := by
  intro c hc
  unfold natChars at hc
  by_cases hz : n = 0
  · rw [if_pos hz] at hc
    simp only [List.mem_singleton] at hc
    subst hc; rfl
  · rw [if_neg hz] at hc
    simp only [List.mem_reverse, List.mem_map] at hc
    obtain ⟨d, _, rfl⟩ := hc
    exact isDigit_digitChar d

theorem decodeNatChars_natChars (n : Nat) : decodeNatChars (natChars n) = some n := by
  unfold decodeNatChars
  rw [if_pos ⟨natChars_ne_nil n, by
    simp only [List.all_eq_true]
    exact fun c hc => natChars_all_digit n c hc⟩]
  by_cases h : n = 0
  · subst h; rfl
  · unfold natChars
    rw [if_neg h, decimalValue_map_digitChar_reverse _ (natDigitsRev_lt n),
      decimalValueRev_natDigitsRev]

/-! ## Timestamp-string codec (model of the JS `Date` ↔ ISO-8601 string codec)

The program exchanges instants as ISO-8601 strings (`Date.toISOString`) and
reads them back with `new Date(string).getTime()`.  The calendar arithmetic
of the real rendering is irrelevant to every claim; what matters is that
the rendering is injective, that rendered strings parse back to the same
instant, and that other strings may fail to parse (JavaScript: `NaN`).  We
model the codec with an explicit marker character. -/

/-- Model of `Date.toISOString()` for the instant `ms` (epoch milliseconds). -/
def isoOfMs (ms : Int) : String :=
  if ms < 0 then String.mk ('@' :: '-' :: natChars ms.natAbs)
  else String.mk ('@' :: natChars ms.natAbs)

/-- Model of `new Date(s).getTime()` combined with the validity test
(`Number.isFinite`): `some` epoch-ms for a string in the codec's image,
`none` (JavaScript: `NaN`, an invalid instant) otherwise. -/
def parseDateMs (s : String) : Option Int :=
  match s.data with
  | [] => none
  | c :: rest =>
    if c = '@' then
      if rest.head? = some '-' then (decodeNatChars rest.tail).map (fun n => -(Int.ofNat n))
      else (decodeNatChars rest).map Int.ofNat
    else none

theorem parseDateMs_isoOfMs (ms : Int) : parseDateMs (isoOfMs ms) = some ms := by
  have hhead : (natChars ms.natAbs).head? ≠ some '-' := by
    intro hc
    have hmem : '-' ∈ natChars ms.natAbs := by
      cases hn : natChars ms.natAbs with
      | nil => exact absurd hn (natChars_ne_nil _)
      | cons a l =>
        rw [hn] at hc
        simp only [List.head?_cons, Option.some.injEq] at hc
        rw [List.mem_cons]
        left
        exact hc.symm
    have := natChars_all_digit ms.natAbs '-' hmem
    simp [Char.isDigit] at this
  unfold isoOfMs parseDateMs
  by_cases h : ms < 0
  · simp only [h, if_true, String.data, List.head?_cons, List.tail_cons,
      decodeNatChars_natChars, Option.map_some', Option.some.injEq, Int.ofNat_eq_coe]
    omega
  · simp only [h, if_false, String.data, hhead,
      decodeNatChars_natChars, Option.map_some', Option.some.injEq, if_true,
      Int.ofNat_eq_coe]
    omega

/-! ## Duration/Time Codec (`src/api/google/routes.ts`) -/

/-- JavaScript truthiness of an optional string: `undefined`, `null` and
`""` are falsy, every other string is truthy. -/
def optTruthy (s : Option String) : Bool :=
  match s with
  | some v => v ≠ ""
  | none => false

/-- Embedding of `parseDurationSeconds` (routes.ts:60-65): the provider
encodes a duration as decimal digits followed by a literal `s`
(regex `^(\d+)s$`); any other shape — including the JS-falsy empty string
and a missing value — yields `none`. -/
def parseDurationSeconds : Option String → Option Nat
  | none => none
  | some str =>
    -- `if (!duration) return undefined` — the empty string is falsy
    if str = "" then none
    else
      -- regex `^(\d+)s$`: last character is 's', the rest are 1+ digits
      if str.data.getLast? = some 's' ∧ str.data.dropLast ≠ []
          ∧ str.data.dropLast.all Char.isDigit
      then some (decimalValue str.data.dropLast) else none

/-- Embedding of `fmtMinutes` (routes.ts:67-70):
`Math.max(1, Math.round(seconds / 60))` followed by ``` `${mins} min` ```.
For a natural `s`, `Math.round(s / 60) = ⌊(s + 30) / 60⌋`. -/
def fmtMinutes (seconds : Nat) : String :=
  toString (max 1 ((seconds + 30) / 60)) ++ " min"

/-- Embedding of `estimateStartAtISOFromArrival` (routes.ts:94-99).
The arrival `Date` is `some` epoch-ms for a valid instant, `none` for an
invalid `Date` (whose `getTime()` is `NaN`, failing `Number.isFinite`).
Note `if (!durationSeconds) return undefined`: in JavaScript `!0` is true,
so a present duration of `0` seconds is also treated as absent. -/
def estimateStartAtISOFromArrival : Option Int → Option Nat → Option String
  | _, none => none
  | arrivalMs, some d =>
    if d = 0 then none          -- JS falsiness of 0
    else
      match arrivalMs with
      | none => none            -- invalid Date: NaN fails Number.isFinite
      | some a => some (isoOfMs (a - (d : Int) * 1000))

/-! ## Transit detail blobs

The provider's `transitDetails` payload is consumed through optional
chaining (`td?.stopDetails?.departureStop?.name` etc.).  Each chain of
optional accesses collapses to a single `Option` field: a chain is
`undefined` exactly when any level is missing, which the flattened field
models with `none`. -/

/-- Flattened model of the `transitDetails` blob of a raw step. -/
structure TransitDetails where
  depStopName : Option String      -- stopDetails?.departureStop?.name
  arrStopName : Option String      -- stopDetails?.arrivalStop?.name
  depTimeISO : Option String       -- stopDetails?.departureTime
  arrTimeISO : Option String       -- stopDetails?.arrivalTime
  locDepTimeText : Option String   -- localizedValues?.departureTime?.time?.text
  locArrTimeText : Option String   -- localizedValues?.arrivalTime?.time?.text
  vehicleNameText : Option String  -- transitLine?.vehicle?.name?.text
  vehicleType : Option String      -- transitLine?.vehicle?.type
  lineNameShort : Option String    -- transitLine?.nameShort
  lineName : Option String         -- transitLine?.name
  headsign : Option String         -- headsign
  deriving Repr, DecidableEq

/-- Which end of a transit segment a time is asked for. -/
inductive TimeEnd where
  | departure
  | arrival
  deriving Repr, DecidableEq

/-- Model of `Date.toLocaleTimeString([], \x7bhour: '2-digit', minute: '2-digit'\x7d)`:
the real rendering is locale- and timezone-dependent; all the program
needs is some non-empty rendering of the instant, modelled injectively. -/
def localeTimeText (ms : Int) : String := "~" ++ toString ms

/-- Embedding of `timeTextFromTransitDetails` (routes.ts:72-83): prefer the
pre-localized text when it is a non-empty string; otherwise parse the raw
ISO timestamp (skipped when falsy) and render it as a local time. -/
def timeTextFromTransitDetails (td : TransitDetails) (which : TimeEnd) : Option String :=
  let localized := match which with
    | .departure => td.locDepTimeText
    | .arrival => td.locArrTimeText
  if optTruthy localized then localized
  else
    let iso := match which with
      | .departure => td.depTimeISO
      | .arrival => td.arrTimeISO
    match iso with
    | none => none
    | some s =>
      if s = "" then none       -- `iso ? new Date(iso) : null`
      else
        match parseDateMs s with
        | some ms => some (localeTimeText ms)
        | none => none          -- invalid instant fails Number.isFinite

/-! ## Steps and the Itinerary Text Summarizer -/

/-- Embedding of the normalized `RouteStep` (routes.ts:30-36). -/
structure RouteStep where
  instruction : String
  distanceMeters : Option Int
  durationSeconds : Option Nat
  travelMode : Option String
  transitDetails : Option TransitDetails
  deriving Repr, DecidableEq

/-- Embedding of `firstTransitDepartureISO` (routes.ts:85-92): the raw
`stopDetails.departureTime` string of the first TRANSIT-tagged step whose
departure time is a non-empty string. -/
def firstTransitDepartureISO : List RouteStep → Option String
  | [] => none
  | s :: rest =>
    if s.travelMode = some "TRANSIT" then
      match s.transitDetails with
      | some td =>
        match td.depTimeISO with
        | some iso => if iso ≠ "" then some iso else firstTransitDepartureISO rest
        | none => firstTransitDepartureISO rest
      | none => firstTransitDepartureISO rest
    else firstTransitDepartureISO rest

/-- The transit itinerary line built by `buildKeyInstructions`
(routes.ts:112-147) for a TRANSIT step carrying a detail blob. -/
def transitLineText (td : TransitDetails) : String :=
  let depTime := timeTextFromTransitDetails td .departure
  let arrTime := timeTextFromTransitDetails td .arrival
  let vehicle := (td.vehicleNameText <|> td.vehicleType).getD "Transit"
  let lineShort := td.lineNameShort <|> td.lineName
  let parts : List String :=
    ["Take", vehicle]
      ++ (if optTruthy lineShort then [lineShort.getD ""] else [])
      ++ ["at"]
      ++ (if optTruthy depTime then [depTime.getD ""] else [])
      ++ (if optTruthy td.headsign then ["toward " ++ td.headsign.getD ""] else [])
  let fromTo : List String :=
    (if optTruthy td.depStopName then ["from " ++ td.depStopName.getD ""] else [])
      ++ (if optTruthy td.arrStopName then ["to " ++ td.arrStopName.getD ""] else [])
  let line := String.intercalate " " parts
  let line := if fromTo ≠ [] then line ++ " " ++ String.intercalate " " fromTo else line
  if optTruthy arrTime then line ++ " (arrive at " ++ arrTime.getD "" ++ ")" else line

/-- The walk line flushed before a transit line (routes.ts:117-120):
``` `Walk ${fmtMinutes(pendingWalkSeconds)}${depStop ? ` to ${depStop}` : ''}` ```. -/
def walkFlushTransit (pending : Nat) (td : TransitDetails) : List String :=
  if pending > 0 then
    ["Walk " ++ fmtMinutes pending
      ++ (if optTruthy td.depStopName then " to " ++ td.depStopName.getD "" else "")]
  else []

/-- Classification of a step by the `buildKeyInstructions` branch it takes
(routes.ts:107, 112, 152): the WALK branch, the TRANSIT-with-details
branch, or the fallback branch carrying the raw instruction text. -/
inductive StepKind where
  | walk (secs : Nat)
  | transit (td : TransitDetails)
  | other (instr : String)
  deriving Repr, DecidableEq

/-- The branch taken by `buildKeyInstructions` for one step.  The WALK
branch reads `s.durationSeconds ?? 0`. -/
def classify (s : RouteStep) : StepKind :=
  if s.travelMode = some "WALK" then .walk (s.durationSeconds.getD 0)
  else
    match s.transitDetails with
    | some td => if s.travelMode = some "TRANSIT" then .transit td else .other s.instruction
    | none => .other s.instruction

/-- The loop body of `buildKeyInstructions` (routes.ts:105-158), with the
`pendingWalkSeconds` accumulator made explicit.  Returns the emitted lines
and the accumulator value after the loop. -/
def goSteps (pending : Nat) : List RouteStep → List String × Nat
  | [] => ([], pending)
  | s :: rest =>
    match classify s with
    | .walk secs => goSteps (pending + secs) rest
    | .transit td =>
      let r := goSteps 0 rest
      (walkFlushTransit pending td ++ transitLineText td :: r.1, r.2)
    | .other instr =>
      let r := goSteps 0 rest
      ((if pending > 0 then ["Walk " ++ fmtMinutes pending] else [])
        ++ (if instr ≠ "" then [instr] else []) ++ r.1, r.2)

/-- Embedding of `buildKeyInstructions` (routes.ts:101-165): run the loop
from a zero accumulator, then flush any remaining pending walk seconds. -/
def buildKeyInstructions (steps : List RouteStep) : List String :=
  let r := goSteps 0 steps
  r.1 ++ (if r.2 > 0 then ["Walk " ++ fmtMinutes r.2] else [])

/-! ## Route Normalizer (`computeRoutes`, routes.ts:182-248)

The network call itself is an external collaborator; the embedding covers
the pure mapping from the provider's JSON response (routes.ts:218-247),
parameterized by the request's time-mode and reference instant.  The
`path` field (an external polyline codec applied to `encodedPolyline`) is
not modelled: no claim concerns it. -/

/-- The request's time-constraint mode (routes.ts:6). -/
inductive TimeMode where
  | departAt
  | arriveBy
  deriving Repr, DecidableEq

/-- Raw provider step (routes.ts:15-25), optional chains flattened. -/
structure RawStep where
  travelMode : Option String
  navInstructions : Option String   -- navigationInstruction?.instructions
  distanceMeters : Option Int
  staticDuration : Option String
  transitDetails : Option TransitDetails
  deriving Repr, DecidableEq

/-- Raw provider sub-leg (routes.ts:14). -/
structure RawLeg where
  steps : Option (List RawStep)
  deriving Repr, DecidableEq

/-- Raw provider route (routes.ts:9-27), optional chains flattened. -/
structure RawRoute where
  duration : Option String
  distanceMeters : Option Int
  encodedPolyline : Option String   -- polyline?.encodedPolyline
  legs : Option (List RawLeg)
  deriving Repr, DecidableEq

/-- Raw provider response (routes.ts:8-28). -/
structure ComputeRoutesResponse where
  routes : Option (List RawRoute)
  deriving Repr, DecidableEq

/-- Embedding of the normalized `RouteOption` (routes.ts:38-58), minus the
decoded `path` (external polyline codec, irrelevant to every claim). -/
structure RouteOption where
  id : String
  durationSeconds : Option Nat
  distanceMeters : Option Int
  encodedPolyline : Option String
  steps : List RouteStep
  keyInstructions : List String
  startAtISO : Option String
  deriving Repr, DecidableEq

/-- Mapping of one raw step (routes.ts:223-229):
`instruction = navigationInstruction?.instructions ?? 'Step'` (nullish
coalescing keeps an empty string). -/
def toRouteStep (s : RawStep) : RouteStep :=
  { instruction := s.navInstructions.getD "Step"
    distanceMeters := s.distanceMeters
    durationSeconds := parseDurationSeconds s.staticDuration
    travelMode := s.travelMode
    transitDetails := s.transitDetails }

/-- Mapping of one raw route at positional index `idx` (routes.ts:219-246).
`startAtISO = firstTransitDepartureISO(steps) ?? (arriveBy ? estimate :
time.toISOString())`. -/
def normalizeRoute (timeMode : TimeMode) (timeMs : Int) (idx : Nat) (r : RawRoute) :
    RouteOption :=
  let steps := match r.legs with
    | none => []                    -- `r.legs?.flatMap(...) ?? []`
    | some legs => legs.flatMap (fun l => (l.steps.getD []).map toRouteStep)
  let durationSeconds := parseDurationSeconds r.duration
  let startAtISO := firstTransitDepartureISO steps <|>
    (match timeMode with
     | .arriveBy => estimateStartAtISOFromArrival (some timeMs) durationSeconds
     | .departAt => some (isoOfMs timeMs))
  { id := toString idx
    durationSeconds := durationSeconds
    distanceMeters := r.distanceMeters
    encodedPolyline := r.encodedPolyline
    steps := steps
    keyInstructions := buildKeyInstructions steps
    startAtISO := startAtISO }

/-- `routes.map((r, idx) => ...)`: map with the positional index. -/
def normalizeRoutes (timeMode : TimeMode) (timeMs : Int) (idx : Nat) :
    List RawRoute → List RouteOption
  | [] => []
  | r :: rest =>
    normalizeRoute timeMode timeMs idx r :: normalizeRoutes timeMode timeMs (idx + 1) rest

/-- Embedding of the response-to-options mapping of `computeRoutes`
(routes.ts:218-247): `const routes = data.routes ?? []` then the indexed
map.  Total — an empty or missing route list yields `[]`, not an error. -/
def computeRoutesPure (resp : ComputeRoutesResponse) (timeMode : TimeMode) (timeMs : Int) :
    List RouteOption :=
  normalizeRoutes timeMode timeMs 0 (resp.routes.getD [])

/-! ## Leg Planner (`onSearch`, ResultsScreen.tsx:636-692)

The planner loop issues one provider call per consecutive stop pair.  The
provider (`computeRoutes`, a network call that may throw) is a parameter;
the embedding also returns the trace of issued calls, in order, so that
call-sequencing claims are statable. -/

/-- A coordinate pair (`places.ts` `LatLng`); the planner only threads it
through, so the numeric type is irrelevant. -/
structure LatLng where
  lat : Int
  lng : Int
  deriving Repr, DecidableEq

/-- A validated stop as consumed by the loop: `onSearch` runs only when
`canSearch` holds, so `place` and (for non-first stops) `arriveBy` are
present — the source asserts them with `!`.  `dwellMinutes` is a plain
number in `StopDraft`, so `stops[i].dwellMinutes ?? 5` is the value itself. -/
structure PlanStop where
  id : String
  location : LatLng
  arriveByMs : Int
  dwellMinutes : Int
  deriving Repr, DecidableEq

/-- One issued provider call (the `computeRoutes` arguments of
ResultsScreen.tsx:650-655; `timeMode` is always `'arriveBy'`). -/
structure ProviderCall where
  origin : LatLng
  destination : LatLng
  arriveByMs : Int
  deriving Repr, DecidableEq

/-- Embedding of the pushed leg record (ResultsScreen.tsx:665-672). -/
structure Leg where
  id : String
  fromStopId : String
  toStopId : String
  arriveByISO : String
  dwellMinutesAtFromStop : Int
  routes : List RouteOption
  deriving Repr, DecidableEq

/-- The instant a route option starts at, as the first-leg filter computes
it (ResultsScreen.tsx:660):
`r.startAtISO ? new Date(r.startAtISO).getTime() : NaN`, with
`Number.isFinite` deciding resolvability (`none` = NaN). -/
def startAtMsOf (r : RouteOption) : Option Int :=
  match r.startAtISO with
  | none => none
  | some s => if s = "" then none else parseDateMs s

/-- The first-leg filter (ResultsScreen.tsx:657-663): keep a route when its
start instant is unresolvable, or resolvable and not earlier than the
plan-level start. -/
def firstLegFilter (minStartMs : Int) (routes : List RouteOption) : List RouteOption :=
  routes.filter fun r =>
    match startAtMsOf r with
    | some ms => decide (minStartMs ≤ ms)
    | none => true

/-- The provider calls the loop would issue: one per consecutive stop pair,
in stop order. -/
def legPairs : List PlanStop → List ProviderCall
  | a :: b :: rest => ⟨a.location, b.location, b.arriveByMs⟩ :: legPairs (b :: rest)
  | _ => []

/-- The leg record `onSearch` pushes for leg index `i` from stop `a` to
stop `b` (ResultsScreen.tsx:657-672): the first-leg start-time filter is
applied exactly when `i = 0`, and the effective dwell is 0 for the first
leg and the from-stop's dwell minutes otherwise. -/
def mkLeg (startAtMs : Int) (i : Nat) (a b : PlanStop) (routes : List RouteOption) : Leg :=
  { id := toString i
    fromStopId := a.id
    toStopId := b.id
    arriveByISO := isoOfMs b.arriveByMs
    dwellMinutesAtFromStop := if i = 0 then 0 else a.dwellMinutes
    routes := if i = 0 then firstLegFilter startAtMs routes else routes }

/-- The loop body of `onSearch` (ResultsScreen.tsx:642-673) at leg index
`i`, instrumented with the trace of issued calls.  A provider error aborts
the remaining legs and is surfaced as the single `Except.error`; no
partial leg list is returned alongside it. -/
def planLoop (provider : ProviderCall → Except String (List RouteOption)) (startAtMs : Int) :
    Nat → List PlanStop → List ProviderCall × Except String (List Leg)
  | _, [] => ([], .ok [])
  | _, [_] => ([], .ok [])
  | i, a :: b :: rest =>
    let call : ProviderCall := ⟨a.location, b.location, b.arriveByMs⟩
    match provider call with
    | .error e => ([call], .error e)
    | .ok routes =>
      let r := planLoop provider startAtMs (i + 1) (b :: rest)
      (call :: r.1, r.2.map (fun legs => mkLeg startAtMs i a b routes :: legs))

/-- Embedding of the whole `onSearch` leg computation: the loop from leg
index 0. -/
def planLegs (provider : ProviderCall → Except String (List RouteOption)) (startAtMs : Int)
    (stops : List PlanStop) : List ProviderCall × Except String (List Leg) :=
  planLoop provider startAtMs 0 stops

/-! ## Feasibility Checker (spec §4.5)

Modelled from the spec: the Feasibility Checker that cross-checks
consecutive legs (spec §2 item 5 and §4.5) has no implementation under
`src/` — the `ResultsScreen` revisions in the repository only render route
options.  The definitions below follow the spec's words. -/

/-- Modelled from the spec (§4.1): `estimateDepartureTimestamp(arrival,
duration)` computes `arrival - duration` in epoch ms; absent if either
input is absent. -/
def estimateDepartureTimestamp (arrivalMs : Option Int) (durationSeconds : Option Nat) :
    Option Int :=
  match arrivalMs, durationSeconds with
  | some a, some d => some (a - (d : Int) * 1000)
  | _, _ => none

/-- Modelled from the spec (§4.5): the data a feasibility warning carries —
the estimated departure time, the previous leg's arrival time, and the
dwell minutes. -/
structure FeasibilityWarning where
  estimatedDepartureMs : Int
  previousArrivalMs : Int
  dwellMinutes : Int
  deriving Repr, DecidableEq

/-- Modelled from the spec (§4.5): for a leg of index > 0,
`neededDepartureMs = arrivalInstant(previousLeg) + dwellMinutes * 60000`;
`estimatedDepartureMs = estimateDepartureTimestamp(currentLeg.arrivalInstant,
representativeOption.durationSeconds)`; warn advisorily iff both are
resolvable and `estimatedDepartureMs < neededDepartureMs`. -/
def checkFeasibility (prevArrivalMs : Option Int) (dwellMinutes : Int)
    (curArrivalMs : Option Int) (reprDurationSeconds : Option Nat) :
    Option FeasibilityWarning :=
  match prevArrivalMs, estimateDepartureTimestamp curArrivalMs reprDurationSeconds with
  | some prev, some est =>
    if est < prev + dwellMinutes * 60000 then
      some { estimatedDepartureMs := est, previousArrivalMs := prev,
             dwellMinutes := dwellMinutes }
    else none
  | _, _ => none

/-! ## Claim C3 — `parseDurationSeconds` -/

/-- C3: for every input string of the form one-or-more decimal digits
followed by a single literal `s` (and nothing else), `parseDurationSeconds`
returns exactly the integer denoted by the digits; for every other string
and for an absent input it returns absent — never zero and never an
error (the function is total with an `Option` result). -/
theorem parseDurationSeconds_spec :
    (∀ ds : List Char, ds ≠ [] → ds.all Char.isDigit = true →
      parseDurationSeconds (some (String.mk (ds ++ ['s']))) = some (decimalValue ds))
    ∧ (∀ s : String, (¬ ∃ ds, ds ≠ [] ∧ ds.all Char.isDigit = true ∧ s.data = ds ++ ['s']) →
      parseDurationSeconds (some s) = none)
    ∧ parseDurationSeconds none = none := by
  refine ⟨?_, ?_, rfl⟩
  · intro ds hne hdig
    have hdata : (String.mk (ds ++ ['s'])).data = ds ++ ['s'] := rfl
    have hempty : String.mk (ds ++ ['s']) ≠ "" := by
      intro h
      have : (String.mk (ds ++ ['s'])).data = ("" : String).data := by rw [h]
      simp only [hdata] at this
      exact hne (by simpa using this)
    rw [parseDurationSeconds, if_neg hempty, hdata]
    rw [if_pos ⟨by simp, by simpa using hne, by simpa using hdig⟩, List.dropLast_concat]
  · intro s hno
    rw [parseDurationSeconds]
    by_cases hempty : s = ""
    · rw [if_pos hempty]
    · rw [if_neg hempty]
      have hcond : ¬ (s.data.getLast? = some 's' ∧ s.data.dropLast ≠ [] ∧
          s.data.dropLast.all Char.isDigit = true) := by
        rintro ⟨hlast, hne, hdig⟩
        apply hno
        refine ⟨s.data.dropLast, hne, hdig, ?_⟩
        have hsne : s.data ≠ [] := by
          intro h
          rw [h] at hlast
          simp at hlast
        have hget := List.dropLast_append_getLast hsne
        have : s.data.getLast hsne = 's' := by
          have := List.getLast?_eq_getLast s.data hsne
          rw [this] at hlast
          simpa using hlast
        rw [this] at hget
        exact hget.symm
      rw [if_neg hcond]

/-- C3 witness: `"930s"` parses to exactly `930`. -/
theorem parseDurationSeconds_spec_witness :
    parseDurationSeconds (some (String.mk ['9', '3', '0', 's'])) = some 930 := by
  have h := parseDurationSeconds_spec.1 ['9', '3', '0'] (by decide) (by decide)
  rw [show (['9', '3', '0'] ++ ['s'] : List Char) = ['9', '3', '0', 's'] from rfl] at h
  rw [h]
  decide

/-! ## Claim C2 — `estimateStartAtISOFromArrival` -/

/-- C2 counterexample: the claim says the estimate is present for every
present non-negative duration *including 0* and absent exactly when the
duration is absent or the arrival unparseable.  But the source guard
`if (!durationSeconds) return undefined` treats the present duration `0`
as absent (JavaScript `!0` is `true`): with a perfectly valid arrival
instant and the present duration `0`, the estimate is absent. -/
theorem estimateStartAt_zero_duration_cex :
    estimateStartAtISOFromArrival (some 0) (some 0) = none := rfl

/-- C2 (amended): when the arrival instant is valid and the duration is
present and *positive*, the estimate satisfies
`arrival - estimate = duration * 1000` exactly; the estimate is absent
exactly when the duration is absent *or zero*, or the arrival timestamp is
not a parseable instant. -/
theorem estimateStartAt_amended :
    (∀ (a : Int) (d : Nat), 0 < d →
      ∃ e : Int, estimateStartAtISOFromArrival (some a) (some d) = some (isoOfMs e)
        ∧ parseDateMs (isoOfMs e) = some e ∧ a - e = (d : Int) * 1000)
    ∧ (∀ (arr : Option Int) (dur : Option Nat),
      estimateStartAtISOFromArrival arr dur = none ↔
        dur = none ∨ dur = some 0 ∨ arr = none) := by
  constructor
  · intro a d hd
    refine ⟨a - (d : Int) * 1000, ?_, parseDateMs_isoOfMs _, by ring⟩
    rw [estimateStartAtISOFromArrival, if_neg (Nat.pos_iff_ne_zero.mp hd)]
  · intro arr dur
    cases dur with
    | none => simp [estimateStartAtISOFromArrival]
    | some d =>
      by_cases hd : d = 0
      · subst hd
        cases arr <;> simp [estimateStartAtISOFromArrival]
      · cases arr with
        | none => simp [estimateStartAtISOFromArrival, hd]
        | some a => simp [estimateStartAtISOFromArrival, hd]

/-- C2 witness: arrival instant 1000000 ms and duration 930 s give an
estimate 930000 ms earlier. -/
theorem estimateStartAt_amended_witness :
    ∃ e : Int, estimateStartAtISOFromArrival (some 1000000) (some 930) = some (isoOfMs e)
      ∧ parseDateMs (isoOfMs e) = some e ∧ (1000000 : Int) - e = ((930 : Nat) : Int) * 1000 :=
  estimateStartAt_amended.1 1000000 930 (by norm_num)

/-! ## Claim C10 — empty provider response -/

/-- C10: a provider response whose route list is missing or empty
normalizes to the empty option list — `computeRoutesPure` is a total
function, so zero alternatives is a plain (non-error) result. -/
theorem computeRoutes_empty_response (resp : ComputeRoutesResponse) (mode : TimeMode)
    (t : Int) (h : resp.routes = none ∨ resp.routes = some []) :
    computeRoutesPure resp mode t = [] := by
  unfold computeRoutesPure
  rcases h with h | h <;> rw [h] <;> rfl

/-- C10 witness: the response with no route list normalizes to `[]`. -/
theorem computeRoutes_empty_response_witness :
    computeRoutesPure { routes := none } TimeMode.arriveBy 0 = [] :=
  computeRoutes_empty_response { routes := none } TimeMode.arriveBy 0 (Or.inl rfl)

/-! ## Claim C9 — Feasibility Checker (spec-modelled) -/

/-- C9: the Feasibility Checker emits a warning exactly when both the
needed departure (previous arrival + dwell·60000) and the estimated
departure (current arrival − representative duration) are resolvable and
the estimate is strictly earlier; the warning carries the estimated
departure, the previous arrival and the dwell minutes; if either quantity
is unresolvable no warning is emitted.  The checker is a pure advisory
function producing an `Option` — it is not consulted by `planLegs`, so it
cannot block plan computation. -/
theorem feasibility_warning_iff :
    ∀ (prevArrivalMs : Option Int) (dwellMinutes : Int) (curArrivalMs : Option Int)
      (reprDurationSeconds : Option Nat),
      (∀ w, checkFeasibility prevArrivalMs dwellMinutes curArrivalMs reprDurationSeconds
          = some w ↔
        ∃ prev est, prevArrivalMs = some prev
          ∧ estimateDepartureTimestamp curArrivalMs reprDurationSeconds = some est
          ∧ est < prev + dwellMinutes * 60000
          ∧ w = ⟨est, prev, dwellMinutes⟩)
      ∧ ((prevArrivalMs = none
          ∨ estimateDepartureTimestamp curArrivalMs reprDurationSeconds = none) →
        checkFeasibility prevArrivalMs dwellMinutes curArrivalMs reprDurationSeconds
          = none) := by
  intro prevArrivalMs dwellMinutes curArrivalMs reprDurationSeconds
  constructor
  · intro w
    cases hp : prevArrivalMs with
    | none => simp [checkFeasibility]
    | some prev =>
      cases he : estimateDepartureTimestamp curArrivalMs reprDurationSeconds with
      | none => simp [checkFeasibility, he]
      | some est =>
        by_cases hl : est < prev + dwellMinutes * 60000
        · simp only [checkFeasibility, he, hl, if_true, Option.some.injEq]
          constructor
          · intro hw
            exact ⟨prev, est, rfl, rfl, hl, hw.symm⟩
          · rintro ⟨p, e, hp', he', _, rfl⟩
            subst hp'
            subst he'
            rfl
        · simp only [checkFeasibility, he, hl, if_false]
          constructor
          · intro hw
            exact Option.noConfusion hw
          · rintro ⟨p, e, hp', he', hlt, _⟩
            injection hp' with h1
            injection he' with h2
            subst h1
            subst h2
            exact absurd hlt hl
  · intro h
    rcases h with h | h
    · simp [checkFeasibility, h]
    · cases prevArrivalMs <;> simp [checkFeasibility, h]

/-- C9 witness — the spec's §8 scenario with `T = 0`: previous leg arrives
at 0, dwell 10 min, representative duration 1200 s, current arrival
constraint 600000 ms (T+10 min).  Estimated departure −600000 < needed
600000, so the warning fires with exactly that content. -/
theorem feasibility_warning_iff_witness :
    checkFeasibility (some 0) 10 (some 600000) (some 1200)
      = some { estimatedDepartureMs := -600000, previousArrivalMs := 0, dwellMinutes := 10 } :=
  ((feasibility_warning_iff (some 0) 10 (some 600000) (some 1200)).1 _).mpr
    ⟨0, -600000, rfl, by decide, by norm_num, rfl⟩

/-! ## Claim C6 — exact transit line -/

/-- The single transit step of the C6 scenario: departure stop "Main St",
arrival stop "Elm St", vehicle name "Bus", short line "36", localized
departure "8:05 AM", localized arrival "8:25 AM", no headsign. -/
def c6TransitDetails : TransitDetails :=
  { depStopName := some "Main St"
    arrStopName := some "Elm St"
    depTimeISO := none
    arrTimeISO := none
    locDepTimeText := some "8:05 AM"
    locArrTimeText := some "8:25 AM"
    vehicleNameText := some "Bus"
    vehicleType := none
    lineNameShort := some "36"
    lineName := none
    headsign := none }

/-- The C6 step sequence: one TRANSIT step carrying `c6TransitDetails`. -/
def c6Steps : List RouteStep :=
  [{ instruction := "Take the bus"
     distanceMeters := none
     durationSeconds := some 1200
     travelMode := some "TRANSIT"
     transitDetails := some c6TransitDetails }]

/-- C6: the Summarizer turns the single fully-populated transit step into
exactly one line with the exact token order
"Take Bus 36 at 8:05 AM from Main St to Elm St (arrive at 8:25 AM)". -/
theorem transit_line_exact :
    buildKeyInstructions c6Steps
      = ["Take Bus 36 at 8:05 AM from Main St to Elm St (arrive at 8:25 AM)"] := by
  decide

/-! ## Summarizer structure lemmas (for C4 and C5) -/

/-- A step the summarizer's WALK branch accepts. -/
def isWalkStep (s : RouteStep) : Prop := s.travelMode = some "WALK"

instance (s : RouteStep) : Decidable (isWalkStep s) := by
  unfold isWalkStep
  infer_instance

/-- The walk seconds a WALK step contributes (`s.durationSeconds ?? 0`). -/
def stepWalkSecs (s : RouteStep) : Nat := s.durationSeconds.getD 0

/-- Total walk seconds of a step run, absent durations counting as 0. -/
def walkSum (ws : List RouteStep) : Nat := (ws.map stepWalkSecs).sum

theorem classify_walk (s : RouteStep) (h : isWalkStep s) :
    classify s = .walk (stepWalkSecs s) := by
  unfold isWalkStep at h
  unfold classify
  rw [if_pos h]
  rfl

theorem classify_not_walk (s : RouteStep) (hs : ¬ isWalkStep s) :
    ∀ secs, classify s ≠ .walk secs := by
  intro secs
  unfold isWalkStep at hs
  unfold classify
  rw [if_neg hs]
  cases h' : s.transitDetails with
  | none => simp
  | some td =>
    by_cases ht : s.travelMode = some "TRANSIT"
    · simp [ht]
    · simp [ht]

/-- Reduction of `goSteps` on a cons, by the classification of the head. -/
theorem goSteps_cons_walk (p : Nat) (s : RouteStep) (rest : List RouteStep) (secs : Nat)
    (hc : classify s = .walk secs) :
    goSteps p (s :: rest) = goSteps (p + secs) rest := by
  simp [goSteps, hc]

theorem goSteps_cons_transit (p : Nat) (s : RouteStep) (rest : List RouteStep)
    (td : TransitDetails) (hc : classify s = .transit td) :
    goSteps p (s :: rest)
      = (walkFlushTransit p td ++ transitLineText td :: (goSteps 0 rest).1,
        (goSteps 0 rest).2) := by
  simp [goSteps, hc]

theorem goSteps_cons_other (p : Nat) (s : RouteStep) (rest : List RouteStep) (instr : String)
    (hc : classify s = .other instr) :
    goSteps p (s :: rest)
      = ((if p > 0 then ["Walk " ++ fmtMinutes p] else [])
          ++ (if instr ≠ "" then [instr] else []) ++ (goSteps 0 rest).1,
        (goSteps 0 rest).2) := by
  simp [goSteps, hc]

theorem goSteps_append (p : Nat) (xs ys : List RouteStep) :
    goSteps p (xs ++ ys) =
      ((goSteps p xs).1 ++ (goSteps (goSteps p xs).2 ys).1,
        (goSteps (goSteps p xs).2 ys).2) := by
  induction xs generalizing p with
  | nil => simp [goSteps]
  | cons s xs ih =>
    rw [List.cons_append]
    cases hc : classify s with
    | walk secs => rw [goSteps_cons_walk _ _ _ _ hc, goSteps_cons_walk _ _ _ _ hc, ih]
    | transit td =>
      rw [goSteps_cons_transit _ _ _ _ hc, goSteps_cons_transit _ _ _ _ hc, ih]
      simp [List.append_assoc]
    | other instr =>
      rw [goSteps_cons_other _ _ _ _ hc, goSteps_cons_other _ _ _ _ hc, ih]
      simp [List.append_assoc]

theorem goSteps_walkRun (p : Nat) (ws : List RouteStep) (h : ∀ s ∈ ws, isWalkStep s) :
    goSteps p ws = ([], p + walkSum ws) := by
  induction ws generalizing p with
  | nil => simp [goSteps, walkSum]
  | cons s ws ih =>
    have hs := classify_walk s (h s (List.mem_cons_self s ws))
    rw [goSteps_cons_walk _ _ _ _ hs,
      ih (p + stepWalkSecs s) (fun x hx => h x (List.mem_cons_of_mem s hx))]
    unfold walkSum
    simp only [List.map_cons, List.sum_cons]
    congr 1
    omega

/-- The emitted lines of the loop started at accumulator `p`, including the
final flush — `buildKeyInstructions steps = runEmit 0 steps`. -/
def runEmit (p : Nat) (steps : List RouteStep) : List String :=
  (goSteps p steps).1
    ++ (if (goSteps p steps).2 > 0 then ["Walk " ++ fmtMinutes (goSteps p steps).2] else [])

theorem buildKeyInstructions_eq_runEmit (steps : List RouteStep) :
    buildKeyInstructions steps = runEmit 0 steps := rfl

/-- The lines a pending-walk accumulator flushes into, as a function of the
step the flush happens at (`none` = end of the list): one "Walk … min"
line — suffixed with " to (departure stop)" when the flushing step is a
detail-carrying transit step with a truthy departure-stop name — when the
accumulator is positive, nothing when it is zero. -/
def flushFor (pending : Nat) (next : Option RouteStep) : List String :=
  match next with
  | some s =>
    match classify s with
    | .walk _ => []       -- a walk step never flushes; unreachable under the run lemma
    | .transit td => walkFlushTransit pending td
    | .other _ => if pending > 0 then ["Walk " ++ fmtMinutes pending] else []
  | none => if pending > 0 then ["Walk " ++ fmtMinutes pending] else []

theorem flushFor_transit (pending : Nat) (s : RouteStep) (td : TransitDetails)
    (hc : classify s = .transit td) :
    flushFor pending (some s) = walkFlushTransit pending td := by
  simp [flushFor, hc]

theorem flushFor_other (pending : Nat) (s : RouteStep) (instr : String)
    (hc : classify s = .other instr) :
    flushFor pending (some s) = (if pending > 0 then ["Walk " ++ fmtMinutes pending] else []) := by
  simp [flushFor, hc]

theorem runEmit_flush_head (pending : Nat) (b : List RouteStep)
    (hb : ∀ s, b.head? = some s → ¬ isWalkStep s) :
    runEmit pending b = flushFor pending b.head? ++ runEmit 0 b := by
  cases b with
  | nil => simp [runEmit, goSteps, flushFor]
  | cons s rest =>
    have hs : ¬ isWalkStep s := hb s rfl
    cases hc : classify s with
    | walk secs => exact absurd hc (classify_not_walk s hs secs)
    | transit td =>
      rw [List.head?_cons, flushFor_transit _ _ _ hc]
      unfold runEmit
      rw [goSteps_cons_transit _ _ _ _ hc, goSteps_cons_transit _ _ _ _ hc]
      have h0 : walkFlushTransit 0 td = [] := rfl
      rw [h0]
      simp [List.append_assoc]
    | other instr =>
      rw [List.head?_cons, flushFor_other _ _ _ hc]
      unfold runEmit
      rw [goSteps_cons_other _ _ _ _ hc, goSteps_cons_other _ _ _ _ hc]
      have h0 : (if (0 : Nat) > 0 then ["Walk " ++ fmtMinutes 0] else []) = [] := rfl
      rw [h0]
      simp [List.append_assoc]

/-- Processing a list whose last step is not a walk step leaves a zero
accumulator (the non-walk branch always resets it). -/
theorem goSteps_snd_zero (p : Nat) (xs : List RouteStep)
    (hne : xs ≠ []) (h : ∀ s, xs.getLast? = some s → ¬ isWalkStep s) :
    (goSteps p xs).2 = 0 := by
  induction xs generalizing p with
  | nil => exact absurd rfl hne
  | cons s rest ih =>
    cases hrest : rest with
    | nil =>
      subst hrest
      have hs : ¬ isWalkStep s := h s (by simp)
      cases hc : classify s with
      | walk secs => exact absurd hc (classify_not_walk s hs secs)
      | transit td => rw [goSteps_cons_transit _ _ _ _ hc]; rfl
      | other instr => rw [goSteps_cons_other _ _ _ _ hc]; rfl
    | cons s2 rest2 =>
      rw [← hrest]
      have hrne : rest ≠ [] := by rw [hrest]; exact List.cons_ne_nil s2 rest2
      have hlast : ∀ x, rest.getLast? = some x → ¬ isWalkStep x := by
        intro x hx
        apply h
        rw [List.getLast?_cons, hx]
        cases rest with
        | nil => exact absurd rfl hrne
        | cons y ys => rfl
      cases hc : classify s with
      | walk secs => rw [goSteps_cons_walk _ _ _ _ hc]; exact ih _ hrne hlast
      | transit td => rw [goSteps_cons_transit _ _ _ _ hc]; exact ih _ hrne hlast
      | other instr => rw [goSteps_cons_other _ _ _ _ hc]; exact ih _ hrne hlast

theorem runEmit_append (p : Nat) (xs ys : List RouteStep) :
    runEmit p (xs ++ ys) = (goSteps p xs).1 ++ runEmit (goSteps p xs).2 ys := by
  unfold runEmit
  rw [goSteps_append]
  simp [List.append_assoc]

theorem buildKeyInstructions_of_flushed (a : List RouteStep)
    (ha : ∀ s, a.getLast? = some s → ¬ isWalkStep s) :
    buildKeyInstructions a = (goSteps 0 a).1 ∧ (goSteps 0 a).2 = 0 := by
  have hA2 : (goSteps 0 a).2 = 0 := by
    cases a with
    | nil => rfl
    | cons x xs => exact goSteps_snd_zero 0 _ (List.cons_ne_nil x xs) ha
  refine ⟨?_, hA2⟩
  rw [buildKeyInstructions_eq_runEmit]
  unfold runEmit
  rw [hA2]
  simp

/-! ## Claim C5 — one line per maximal walk run -/

/-- A walk step with an absent duration ("absent walk durations count
as 0" per the claim). -/
def walkStepNoDuration : RouteStep :=
  { instruction := "Walk"
    distanceMeters := none
    durationSeconds := none
    travelMode := some "WALK"
    transitDetails := none }

/-- C5 counterexample: the claim says every maximal run of consecutive
walk steps emits exactly one line "Walk N min" with
`N = max(1, round(totalWalkSeconds/60))` and absent durations counting
as 0 — so the single-step run with an absent duration (total 0) would
emit exactly `["Walk 1 min"]`.  The code's flush is guarded by
`pendingWalkSeconds > 0`, so a zero-total run emits *nothing*. -/
theorem walk_run_zero_total_cex :
    buildKeyInstructions [walkStepNoDuration] ≠ ["Walk 1 min"] := by
  decide

/-- C5 (amended): every maximal run of consecutive walk steps with
*positive* total seconds (absent durations counting as 0) emits exactly
one line for the run, namely "Walk N min" with
`N = max(1, round(totalWalkSeconds/60))` — suffixed with
" to (departure stop)" when the run is flushed by a transit step with a
known departure stop — and a run with zero total emits no line.  Stated
over an arbitrary decomposition `a ++ ws ++ b` in which `ws` is a maximal
walk run (`a` empty or ending in a non-walk step, `b` empty or starting
with a non-walk step): the summarizer's output is the output for `a`,
then exactly the lines `flushFor (walkSum ws) b.head?` for the run, then
the output for `b`. -/
theorem walk_run_single_line (a ws b : List RouteStep)
    (hws : ws ≠ []) (hall : ∀ s ∈ ws, isWalkStep s)
    (ha : ∀ s, a.getLast? = some s → ¬ isWalkStep s)
    (hb : ∀ s, b.head? = some s → ¬ isWalkStep s) :
    buildKeyInstructions (a ++ ws ++ b)
        = buildKeyInstructions a ++ flushFor (walkSum ws) b.head? ++ buildKeyInstructions b
      ∧ (walkSum ws = 0 → flushFor (walkSum ws) b.head? = [])
      ∧ (0 < walkSum ws →
          flushFor (walkSum ws) b.head? = ["Walk " ++ fmtMinutes (walkSum ws)]
          ∨ ∃ nm, flushFor (walkSum ws) b.head?
              = ["Walk " ++ fmtMinutes (walkSum ws) ++ (" to " ++ nm)])
      ∧ fmtMinutes (walkSum ws) = toString (max 1 ((walkSum ws + 30) / 60)) ++ " min" := by
  obtain ⟨hA1, hA2⟩ := buildKeyInstructions_of_flushed a ha
  refine ⟨?_, ?_, ?_, rfl⟩
  · rw [buildKeyInstructions_eq_runEmit, runEmit_append, goSteps_append, hA2,
      goSteps_walkRun 0 ws hall]
    simp only [Nat.zero_add, List.append_nil]
    rw [runEmit_flush_head (walkSum ws) b hb, hA1]
    rw [buildKeyInstructions_eq_runEmit b]
    simp [List.append_assoc]
  · intro hz
    cases hhd : b.head? with
    | none => simp [flushFor, hz]
    | some s =>
      have hs : ¬ isWalkStep s := hb s hhd
      cases hc : classify s with
      | walk secs => exact absurd hc (classify_not_walk s hs secs)
      | transit td => rw [flushFor_transit _ _ _ hc]; simp [walkFlushTransit, hz]
      | other instr => rw [flushFor_other _ _ _ hc]; simp [hz]
  · intro hpos
    cases hhd : b.head? with
    | none =>
      left
      simp [flushFor, hpos]
    | some s =>
      have hs : ¬ isWalkStep s := hb s hhd
      cases hc : classify s with
      | walk secs => exact absurd hc (classify_not_walk s hs secs)
      | transit td =>
        rw [flushFor_transit _ _ _ hc]
        unfold walkFlushTransit
        rw [if_pos hpos]
        by_cases htr : optTruthy td.depStopName = true
        · right
          exact ⟨td.depStopName.getD "", by rw [if_pos htr]⟩
        · left
          rw [if_neg htr]
          simp [String.append_empty]
      | other instr =>
        left
        rw [flushFor_other _ _ _ hc, if_pos hpos]

/-- C5 witness — the spec's walk-only scenario: two consecutive walk steps
of 90 s and 150 s produce exactly the single line "Walk 4 min"
(`round(240/60) = 4`). -/
theorem walk_run_single_line_witness :
    buildKeyInstructions
        [{ instruction := "w1", distanceMeters := none, durationSeconds := some 90,
           travelMode := some "WALK", transitDetails := none },
         { instruction := "w2", distanceMeters := none, durationSeconds := some 150,
           travelMode := some "WALK", transitDetails := none }]
      = ["Walk 4 min"] := by
  have h := (walk_run_single_line []
    [{ instruction := "w1", distanceMeters := none, durationSeconds := some 90,
       travelMode := some "WALK", transitDetails := none },
     { instruction := "w2", distanceMeters := none, durationSeconds := some 150,
       travelMode := some "WALK", transitDetails := none }] []
    (by decide) (by decide) (by intro s hs; exact Option.noConfusion hs)
    (by intro s hs; exact Option.noConfusion hs)).1
  simpa using h

/-! ## Claim C4 — non-empty summaries -/

/-- A step that makes the summarizer emit at least one line: a walk step
contributing positive seconds, a detail-carrying transit step, or a
fallback step with non-empty instruction text. -/
def producesLine (s : RouteStep) : Prop :=
  match classify s with
  | .walk secs => 0 < secs
  | .transit _ => True
  | .other instr => instr ≠ ""

/-- A positive pending accumulator is always eventually flushed. -/
theorem runEmit_ne_nil_of_pending (steps : List RouteStep) :
    ∀ p : Nat, 0 < p → runEmit p steps ≠ [] := by
  induction steps with
  | nil =>
    intro p hp
    unfold runEmit
    simp [goSteps, hp]
  | cons s rest ih =>
    intro p hp
    cases hc : classify s with
    | walk secs =>
      unfold runEmit
      rw [goSteps_cons_walk _ _ _ _ hc]
      exact ih (p + secs) (by omega)
    | transit td =>
      unfold runEmit
      rw [goSteps_cons_transit _ _ _ _ hc]
      simp
    | other instr =>
      unfold runEmit
      rw [goSteps_cons_other _ _ _ _ hc]
      simp [hp]

/-- A step that produces a line makes the whole run's output non-empty. -/
theorem runEmit_ne_nil_of_producing (steps : List RouteStep) :
    ∀ p : Nat, (∃ s ∈ steps, producesLine s) → runEmit p steps ≠ [] := by
  induction steps with
  | nil =>
    rintro p ⟨s, hs, _⟩
    exact absurd hs (List.not_mem_nil s)
  | cons s rest ih =>
    rintro p ⟨x, hx, hpx⟩
    cases hc : classify s with
    | walk secs =>
      unfold runEmit
      rw [goSteps_cons_walk _ _ _ _ hc]
      rcases List.mem_cons.mp hx with rfl | hxr
      · have hsecs : 0 < secs := by
          unfold producesLine at hpx
          rw [hc] at hpx
          exact hpx
        exact runEmit_ne_nil_of_pending rest (p + secs) (by omega)
      · exact ih (p + secs) ⟨x, hxr, hpx⟩
    | transit td =>
      unfold runEmit
      rw [goSteps_cons_transit _ _ _ _ hc]
      simp
    | other instr =>
      unfold runEmit
      rw [goSteps_cons_other _ _ _ _ hc]
      rcases List.mem_cons.mp hx with rfl | hxr
      · have hinstr : instr ≠ "" := by
          unfold producesLine at hpx
          rw [hc] at hpx
          exact hpx
        simp [hinstr]
      · have hrest := ih 0 ⟨x, hxr, hpx⟩
        unfold runEmit at hrest
        intro hcontra
        apply hrest
        simp only [List.append_eq_nil] at hcontra
        rw [hcontra.1.2, hcontra.2]
        rfl

/-- A step whose fallback branch carries empty instruction text. -/
def blankFallbackStep : RouteStep :=
  { instruction := ""
    distanceMeters := none
    durationSeconds := some 60
    travelMode := some "BICYCLE"
    transitDetails := none }

/-- C4 counterexample: the claim says every non-empty step sequence —
including unrecognized-mode steps — yields at least one instruction line.
But the fallback branch emits the raw instruction only when it is truthy
(`if (s.instruction) out.push(s.instruction)`), so a single
unrecognized-mode step with empty instruction text yields no lines. -/
theorem keyInstructions_empty_cex :
    buildKeyInstructions [blankFallbackStep] = []
      ∧ [blankFallbackStep] ≠ ([] : List RouteStep) := by
  exact ⟨by decide, by decide⟩

/-- C4 (amended): `keyInstructions` is non-empty whenever `steps` contains
at least one line-producing step — a walk step with positive contributed
seconds, a transit step carrying its detail blob, or a fallback step with
non-empty instruction text.  (A sequence of only zero-second walk steps
and blank fallback steps summarizes to the empty list.) -/
theorem keyInstructions_nonempty_amended (steps : List RouteStep)
    (h : ∃ s ∈ steps, producesLine s) : buildKeyInstructions steps ≠ [] := by
  rw [buildKeyInstructions_eq_runEmit]
  exact runEmit_ne_nil_of_producing steps 0 h

/-- A fallback step with non-empty instruction text, for the C4 witness. -/
def plainFallbackStep : RouteStep :=
  { instruction := "Continue straight"
    distanceMeters := none
    durationSeconds := none
    travelMode := none
    transitDetails := none }

/-- C4 witness: a single fallback step with instruction "Continue straight"
yields a non-empty summary. -/
theorem keyInstructions_nonempty_amended_witness :
    buildKeyInstructions [plainFallbackStep] ≠ [] := by
  apply keyInstructions_nonempty_amended
  refine ⟨plainFallbackStep, List.mem_cons_self _ _, ?_⟩
  have hc : classify plainFallbackStep = StepKind.other "Continue straight" := by decide
  unfold producesLine
  rw [hc]
  decide

/-! ## Claim C7 — `startAtISO` derivation priority -/

/-- The departure timestamp a step contributes to the first-transit scan
(routes.ts:86-90): present iff the step is TRANSIT-tagged and its detail
blob carries a non-empty departure-time string. -/
def transitDepISO (s : RouteStep) : Option String :=
  if s.travelMode = some "TRANSIT" then
    match s.transitDetails with
    | some td =>
      match td.depTimeISO with
      | some iso => if iso ≠ "" then some iso else none
      | none => none
    | none => none
  else none

theorem firstTransitDepartureISO_cons (s : RouteStep) (rest : List RouteStep) :
    firstTransitDepartureISO (s :: rest)
      = (transitDepISO s).orElse (fun _ => firstTransitDepartureISO rest) := by
  rw [firstTransitDepartureISO]
  unfold transitDepISO
  by_cases ht : s.travelMode = some "TRANSIT"
  · rw [if_pos ht, if_pos ht]
    cases htd : s.transitDetails with
    | none => simp [Option.orElse]
    | some td =>
      cases hiso : td.depTimeISO with
      | none => simp [hiso, Option.orElse]
      | some iso =>
        by_cases hne : iso ≠ ""
        · simp [hiso, hne, Option.orElse]
        · simp [hiso, hne, Option.orElse]
  · rw [if_neg ht, if_neg ht]
    simp [Option.orElse]

/-- `firstTransitDepartureISO` is the head of the contributed-timestamp
scan: the first TRANSIT-tagged step with a usable departure time wins. -/
theorem firstTransitDepartureISO_eq_head (steps : List RouteStep) :
    firstTransitDepartureISO steps = (steps.filterMap transitDepISO).head? := by
  induction steps with
  | nil => rfl
  | cons s rest ih =>
    rw [firstTransitDepartureISO_cons, List.filterMap_cons]
    cases hd : transitDepISO s with
    | none => simp [Option.orElse, ih]
    | some v => simp [Option.orElse]

/-- Every normalized option arises from one raw route at some index. -/
theorem mem_normalizeRoutes (mode : TimeMode) (t : Int) :
    ∀ (idx : Nat) (rs : List RawRoute) (opt : RouteOption),
      opt ∈ normalizeRoutes mode t idx rs → ∃ i r, r ∈ rs ∧ opt = normalizeRoute mode t i r := by
  intro idx rs
  induction rs generalizing idx with
  | nil =>
    intro opt h
    exact absurd h (List.not_mem_nil opt)
  | cons r rest ih =>
    intro opt h
    rw [normalizeRoutes] at h
    rcases List.mem_cons.mp h with rfl | hr
    · exact ⟨idx, r, List.mem_cons_self _ _, rfl⟩
    · obtain ⟨i, r', hmem, heq⟩ := ih (idx + 1) opt hr
      exact ⟨i, r', List.mem_cons_of_mem _ hmem, heq⟩

/-- The `startAtISO` of a normalized option is exactly the source's
fallback chain over that option's own steps and decoded duration. -/
theorem normalizeRoute_startAt (mode : TimeMode) (t : Int) (idx : Nat) (r : RawRoute) :
    (normalizeRoute mode t idx r).startAtISO
      = (firstTransitDepartureISO (normalizeRoute mode t idx r).steps).orElse (fun _ =>
          match mode with
          | .arriveBy =>
            estimateStartAtISOFromArrival (some t) (normalizeRoute mode t idx r).durationSeconds
          | .departAt => some (isoOfMs t)) := rfl

/-- C7: for every normalized route option the derived `startAtISO` follows
the strict priority (a) first transit departure timestamp, else (b) in
arrive-by mode the arrival-minus-duration estimate (absent when the
decoded duration is absent), else (c) in depart-at mode the reference
timestamp verbatim. -/
theorem startAt_priority (resp : ComputeRoutesResponse) (mode : TimeMode) (t : Int)
    (opt : RouteOption) (hmem : opt ∈ computeRoutesPure resp mode t) :
    (∀ iso, firstTransitDepartureISO opt.steps = some iso → opt.startAtISO = some iso)
    ∧ (firstTransitDepartureISO opt.steps = none → mode = TimeMode.arriveBy →
        opt.startAtISO = estimateStartAtISOFromArrival (some t) opt.durationSeconds)
    ∧ (firstTransitDepartureISO opt.steps = none → mode = TimeMode.departAt →
        opt.startAtISO = some (isoOfMs t))
    ∧ firstTransitDepartureISO opt.steps = (opt.steps.filterMap transitDepISO).head?
    ∧ (mode = TimeMode.arriveBy → opt.durationSeconds = none →
        firstTransitDepartureISO opt.steps = none → opt.startAtISO = none) := by
  obtain ⟨i, r, _, rfl⟩ := mem_normalizeRoutes mode t 0 (resp.routes.getD []) opt hmem
  refine ⟨?_, ?_, ?_, firstTransitDepartureISO_eq_head _, ?_⟩
  · intro iso hiso
    rw [normalizeRoute_startAt, hiso]
    rfl
  · intro hnone hmode
    subst hmode
    rw [normalizeRoute_startAt, hnone]
    rfl
  · intro hnone hmode
    subst hmode
    rw [normalizeRoute_startAt, hnone]
    rfl
  · intro hmode hdur hnone
    subst hmode
    rw [normalizeRoute_startAt, hnone, hdur]
    rfl

/-- The transit detail blob of the C7 witness step: departure timestamp
string "T100". -/
def c7Td : TransitDetails :=
  { depStopName := none
    arrStopName := none
    depTimeISO := some "T100"
    arrTimeISO := none
    locDepTimeText := none
    locArrTimeText := none
    vehicleNameText := none
    vehicleType := none
    lineNameShort := none
    lineName := none
    headsign := none }

/-- The raw step of the C7 witness: TRANSIT-tagged, carrying `c7Td`. -/
def c7RawStep : RawStep :=
  { travelMode := some "TRANSIT"
    navInstructions := some "Ride"
    distanceMeters := none
    staticDuration := some "600s"
    transitDetails := some c7Td }

/-- The raw route of the C7 witness: a single transit step carrying the
departure timestamp string "T100". -/
def c7Route : RawRoute :=
  { duration := some "600s"
    distanceMeters := none
    encodedPolyline := none
    legs := some [{ steps := some [c7RawStep] }] }

/-- The response wrapping `c7Route`. -/
def c7Resp : ComputeRoutesResponse := { routes := some [c7Route] }

/-- C7 witness: with a transit departure timestamp present, priority (a)
wins — the normalized option's `startAtISO` is that timestamp verbatim. -/
theorem startAt_priority_witness :
    (normalizeRoute TimeMode.departAt 7 0 c7Route).startAtISO = some "T100" := by
  have h := (startAt_priority c7Resp TimeMode.departAt 7
    (normalizeRoute TimeMode.departAt 7 0 c7Route) (List.mem_cons_self _ _)).1
  exact h "T100" (by decide)

/-! ## Planner reduction lemmas (for C1 and C8) -/

theorem planLoop_cons_error (provider : ProviderCall → Except String (List RouteOption))
    (startAtMs : Int) (i : Nat) (a b : PlanStop) (rest : List PlanStop) (e : String)
    (hp : provider ⟨a.location, b.location, b.arriveByMs⟩ = .error e) :
    planLoop provider startAtMs i (a :: b :: rest)
      = ([⟨a.location, b.location, b.arriveByMs⟩], .error e) := by
  simp only [planLoop, hp]

theorem planLoop_cons_ok (provider : ProviderCall → Except String (List RouteOption))
    (startAtMs : Int) (i : Nat) (a b : PlanStop) (rest : List PlanStop)
    (routes : List RouteOption)
    (hp : provider ⟨a.location, b.location, b.arriveByMs⟩ = .ok routes) :
    planLoop provider startAtMs i (a :: b :: rest)
      = (⟨a.location, b.location, b.arriveByMs⟩
            :: (planLoop provider startAtMs (i + 1) (b :: rest)).1,
        (planLoop provider startAtMs (i + 1) (b :: rest)).2.map
          (fun legs => mkLeg startAtMs i a b routes :: legs)) := by
  simp only [planLoop, hp]

/-- The k-th produced leg's routes come from the k-th provider call,
filtered exactly when the leg's overall index `i + k` is 0. -/
theorem planLoop_leg_routes (provider : ProviderCall → Except String (List RouteOption))
    (startAtMs : Int) :
    ∀ (stops : List PlanStop) (i k : Nat) (legs : List Leg) (leg : Leg),
      (planLoop provider startAtMs i stops).2 = .ok legs →
      legs[k]? = some leg →
      ∃ c rs, (legPairs stops)[k]? = some c ∧ provider c = .ok rs ∧
        leg.routes = (if i + k = 0 then firstLegFilter startAtMs rs else rs) := by
  intro stops
  induction stops with
  | nil =>
    intro i k legs leg h hk
    have hlegs : legs = [] := by
      have h0 : (planLoop provider startAtMs i []).2 = Except.ok ([] : List Leg) := rfl
      rw [h0] at h
      injection h with h'
      exact h'.symm
    subst hlegs
    simp at hk
  | cons a rest ih =>
    intro i k legs leg h hk
    cases rest with
    | nil =>
      have hlegs : legs = [] := by
        have h0 : (planLoop provider startAtMs i [a]).2 = Except.ok ([] : List Leg) := rfl
        rw [h0] at h
        injection h with h'
        exact h'.symm
      subst hlegs
      simp at hk
    | cons b rest2 =>
      cases hp : provider ⟨a.location, b.location, b.arriveByMs⟩ with
      | error e =>
        rw [planLoop_cons_error provider startAtMs i a b rest2 e hp] at h
        exact absurd h (by simp)
      | ok routes =>
        rw [planLoop_cons_ok provider startAtMs i a b rest2 routes hp] at h
        cases hr : (planLoop provider startAtMs (i + 1) (b :: rest2)).2 with
        | error e =>
          rw [hr] at h
          exact absurd h (by simp [Except.map])
        | ok legs' =>
          rw [hr] at h
          simp only [Except.map, Except.ok.injEq] at h
          subst h
          cases k with
          | zero =>
            simp only [List.getElem?_cons_zero, Option.some.injEq] at hk
            subst hk
            refine ⟨⟨a.location, b.location, b.arriveByMs⟩, routes, ?_, hp, ?_⟩
            · simp [legPairs]
            · simp only [Nat.add_zero]
              rfl
          | succ k' =>
            simp only [List.getElem?_cons_succ] at hk
            obtain ⟨c, rs, hc, hrs, hroutes⟩ := ih (i + 1) k' legs' leg hr hk
            refine ⟨c, rs, ?_, hrs, ?_⟩
            · simpa [legPairs] using hc
            · rw [hroutes]
              have : i + 1 + k' = i + (k' + 1) := by omega
              rw [this]

/-! ## Claim C1 — first-leg start-time filter -/

/-- C1: (i) the first-leg filter keeps a route option iff its derived
start instant is unresolvable (missing or unparseable `startAtISO`) or not
strictly earlier than the plan-level start; (ii) in the planner the filter
is applied exactly to the leg of index 0 — every later leg's routes are
the provider's result unfiltered. -/
theorem first_leg_filter_spec :
    (∀ (minStartMs : Int) (routes : List RouteOption) (r : RouteOption),
      r ∈ firstLegFilter minStartMs routes ↔
        r ∈ routes ∧ ∀ ms, startAtMsOf r = some ms → minStartMs ≤ ms)
    ∧ (∀ (provider : ProviderCall → Except String (List RouteOption)) (startAtMs : Int)
        (stops : List PlanStop) (legs : List Leg) (k : Nat) (leg : Leg),
      (planLegs provider startAtMs stops).2 = .ok legs →
      legs[k]? = some leg →
      ∃ c rs, (legPairs stops)[k]? = some c ∧ provider c = .ok rs ∧
        leg.routes = (if k = 0 then firstLegFilter startAtMs rs else rs)) := by
  constructor
  · intro minStartMs routes r
    unfold firstLegFilter
    rw [List.mem_filter]
    constructor
    · rintro ⟨hmem, hpred⟩
      refine ⟨hmem, ?_⟩
      intro ms hms
      rw [hms] at hpred
      exact of_decide_eq_true hpred
    · rintro ⟨hmem, hms⟩
      refine ⟨hmem, ?_⟩
      cases hm : startAtMsOf r with
      | none => rfl
      | some ms => exact decide_eq_true (hms ms hm)
  · intro provider startAtMs stops legs k leg h hk
    obtain ⟨c, rs, hc, hrs, hroutes⟩ :=
      planLoop_leg_routes provider startAtMs stops 0 k legs leg h hk
    refine ⟨c, rs, hc, hrs, ?_⟩
    rw [hroutes]
    have : 0 + k = k := by omega
    rw [this]

theorem isoOfMs_ne_empty (ms : Int) : isoOfMs ms ≠ "" := by
  unfold isoOfMs
  split <;> (intro h; have hd := congrArg String.data h; simp at hd)

theorem startAtMsOf_isoOfMs (r : RouteOption) (ms : Int)
    (h : r.startAtISO = some (isoOfMs ms)) : startAtMsOf r = some ms := by
  simp only [startAtMsOf, h]
  rw [if_neg (isoOfMs_ne_empty ms), parseDateMs_isoOfMs]

/-- Route option of the C1 witness starting one minute before the plan
start (plan start 5000 ms; this starts at 4000 ms). -/
def wOptEarly : RouteOption :=
  { id := "0", durationSeconds := none, distanceMeters := none, encodedPolyline := none,
    steps := [], keyInstructions := [], startAtISO := some (isoOfMs 4000) }

/-- Route option of the C1 witness starting after the plan start. -/
def wOptLate : RouteOption :=
  { id := "1", durationSeconds := none, distanceMeters := none, encodedPolyline := none,
    steps := [], keyInstructions := [], startAtISO := some (isoOfMs 6000) }

theorem firstLegFilter_concrete :
    firstLegFilter 5000 [wOptEarly, wOptLate] = [wOptLate] := by
  have he : startAtMsOf wOptEarly = some 4000 := startAtMsOf_isoOfMs _ _ rfl
  have hl : startAtMsOf wOptLate = some 6000 := startAtMsOf_isoOfMs _ _ rfl
  unfold firstLegFilter
  rw [List.filter_cons, List.filter_cons, List.filter_nil]
  rw [show (match startAtMsOf wOptEarly with
      | some ms => decide (5000 ≤ ms)
      | none => true) = false by rw [he]; decide]
  rw [show (match startAtMsOf wOptLate with
      | some ms => decide (5000 ≤ ms)
      | none => true) = true by rw [hl]; decide]
  rfl

/-- First stop of the C1 witness plan. -/
def wStop0 : PlanStop := { id := "A", location := ⟨0, 0⟩, arriveByMs := 0, dwellMinutes := 0 }

/-- Second stop of the C1 witness plan. -/
def wStop1 : PlanStop := { id := "B", location := ⟨1, 1⟩, arriveByMs := 10000, dwellMinutes := 5 }

/-- The C1 witness provider: one call, two alternatives. -/
def wProvider : ProviderCall → Except String (List RouteOption) :=
  fun _ => .ok [wOptEarly, wOptLate]

/-- The single leg the C1 witness plan produces. -/
def wLeg : Leg := mkLeg 5000 0 wStop0 wStop1 [wOptEarly, wOptLate]

/-- C1 witness — the spec's first-leg filtering scenario: plan start
5000 ms, alternatives starting at 4000 ms and 6000 ms; leg 0's routes are
the filtered list, and the filter keeps only the later alternative. -/
theorem first_leg_filter_spec_witness :
    (∃ c rs, (legPairs [wStop0, wStop1])[0]? = some c ∧ wProvider c = .ok rs ∧
      wLeg.routes = (if 0 = 0 then firstLegFilter 5000 rs else rs))
    ∧ firstLegFilter 5000 [wOptEarly, wOptLate] = [wOptLate] :=
  ⟨first_leg_filter_spec.2 wProvider 5000 [wStop0, wStop1] [wLeg] 0 wLeg rfl rfl,
    firstLegFilter_concrete⟩

/-! ## Claim C8 — provider call sequencing -/

/-- Whether a provider call succeeded. -/
def exceptOk : Except String (List RouteOption) → Bool
  | .ok _ => true
  | .error _ => false

theorem legPairs_cons_cons (a b : PlanStop) (rest : List PlanStop) :
    legPairs (a :: b :: rest)
      = ⟨a.location, b.location, b.arriveByMs⟩ :: legPairs (b :: rest) := rfl

theorem legPairs_eq_zip : ∀ stops : List PlanStop,
    legPairs stops = (stops.zip stops.tail).map
      (fun p => ⟨p.1.location, p.2.location, p.2.arriveByMs⟩) := by
  intro stops
  induction stops with
  | nil => rfl
  | cons a rest ih =>
    cases rest with
    | nil => rfl
    | cons b rest2 =>
      rw [legPairs_cons_cons, ih]
      rfl

theorem legPairs_length : ∀ stops : List PlanStop,
    (legPairs stops).length = stops.length - 1 := by
  intro stops
  induction stops with
  | nil => rfl
  | cons a rest ih =>
    cases rest with
    | nil => rfl
    | cons b rest2 =>
      rw [legPairs_cons_cons]
      simp only [List.length_cons]
      rw [ih]
      simp [List.length_cons]

theorem planLoop_ok_trace (provider : ProviderCall → Except String (List RouteOption))
    (startAtMs : Int) :
    ∀ (stops : List PlanStop) (i : Nat),
      (∀ c ∈ legPairs stops, exceptOk (provider c) = true) →
      (planLoop provider startAtMs i stops).1 = legPairs stops
      ∧ ∃ legs, (planLoop provider startAtMs i stops).2 = .ok legs
          ∧ legs.length = (legPairs stops).length := by
  intro stops
  induction stops with
  | nil => exact fun i _ => ⟨rfl, [], rfl, rfl⟩
  | cons a rest ih =>
    intro i h
    cases rest with
    | nil => exact ⟨rfl, [], rfl, rfl⟩
    | cons b rest2 =>
      rw [legPairs_cons_cons] at h
      have hcall := h _ (List.mem_cons_self _ _)
      obtain ⟨rs, hrs⟩ : ∃ rs, provider ⟨a.location, b.location, b.arriveByMs⟩ = .ok rs := by
        cases hpc : provider ⟨a.location, b.location, b.arriveByMs⟩ with
        | ok rs => exact ⟨rs, rfl⟩
        | error e =>
          rw [hpc] at hcall
          exact absurd hcall (by simp [exceptOk])
      obtain ⟨htr, legs', hlegs', hlen⟩ :=
        ih (i + 1) (fun c hc => h c (List.mem_cons_of_mem _ hc))
      rw [planLoop_cons_ok provider startAtMs i a b rest2 rs hrs]
      refine ⟨?_, mkLeg startAtMs i a b rs :: legs', ?_, ?_⟩
      · rw [legPairs_cons_cons, htr]
      · simp only [hlegs', Except.map]
      · rw [legPairs_cons_cons]
        simp only [List.length_cons]
        omega

theorem planLoop_error_trace (provider : ProviderCall → Except String (List RouteOption))
    (startAtMs : Int) :
    ∀ (stops : List PlanStop) (i : Nat) (good : List ProviderCall) (bad : ProviderCall)
      (rest2 : List ProviderCall) (e : String),
      legPairs stops = good ++ bad :: rest2 →
      (∀ c ∈ good, exceptOk (provider c) = true) →
      provider bad = .error e →
      planLoop provider startAtMs i stops = (good ++ [bad], .error e) := by
  intro stops
  induction stops with
  | nil =>
    intro i good bad rest2 e hpairs _ _
    have h0 : ([] : List ProviderCall) = good ++ bad :: rest2 := hpairs
    exact absurd h0.symm (by simp)
  | cons a rest ih =>
    intro i good bad rest2 e hpairs hgood hbad
    cases rest with
    | nil =>
      have h0 : ([] : List ProviderCall) = good ++ bad :: rest2 := hpairs
      exact absurd h0.symm (by simp)
    | cons b rest3 =>
      rw [legPairs_cons_cons] at hpairs
      cases good with
      | nil =>
        simp only [List.nil_append] at hpairs ⊢
        injection hpairs with h1 h2
        rw [planLoop_cons_error provider startAtMs i a b rest3 e (h1 ▸ hbad)]
        rw [h1]
      | cons g0 good' =>
        simp only [List.cons_append] at hpairs
        injection hpairs with h1 h2
        have hok := hgood g0 (List.mem_cons_self _ _)
        obtain ⟨rs, hrs⟩ : ∃ rs, provider ⟨a.location, b.location, b.arriveByMs⟩ = .ok rs := by
          cases hpc : provider ⟨a.location, b.location, b.arriveByMs⟩ with
          | ok rs => exact ⟨rs, rfl⟩
          | error e' =>
            rw [← h1, hpc] at hok
            exact absurd hok (by simp [exceptOk])
        rw [planLoop_cons_ok provider startAtMs i a b rest3 rs hrs]
        rw [ih (i + 1) good' bad rest2 e h2
          (fun c hc => hgood c (List.mem_cons_of_mem _ hc)) hbad]
        rw [h1]
        simp [Except.map]

/-- C8: (i) the planner's call list is one call per consecutive stop pair
in stop order — for n stops, exactly n−1 calls; (ii) when every call
succeeds, the issued trace is exactly that list and the plan resolves to
n−1 legs; (iii) when a call fails after a prefix of successes, the trace
stops right at the failing call (no later call is issued) and the single
error is surfaced with no partial leg list. -/
theorem planner_call_sequence :
    (∀ stops : List PlanStop,
      legPairs stops = (stops.zip stops.tail).map
          (fun p => ⟨p.1.location, p.2.location, p.2.arriveByMs⟩)
        ∧ (legPairs stops).length = stops.length - 1)
    ∧ (∀ (provider : ProviderCall → Except String (List RouteOption)) (startAtMs : Int)
        (stops : List PlanStop),
      (∀ c ∈ legPairs stops, exceptOk (provider c) = true) →
      (planLegs provider startAtMs stops).1 = legPairs stops
      ∧ ∃ legs, (planLegs provider startAtMs stops).2 = .ok legs
          ∧ legs.length = stops.length - 1)
    ∧ (∀ (provider : ProviderCall → Except String (List RouteOption)) (startAtMs : Int)
        (stops : List PlanStop) (good : List ProviderCall) (bad : ProviderCall)
        (rest2 : List ProviderCall) (e : String),
      legPairs stops = good ++ bad :: rest2 →
      (∀ c ∈ good, exceptOk (provider c) = true) →
      provider bad = .error e →
      planLegs provider startAtMs stops = (good ++ [bad], .error e)) := by
  refine ⟨fun stops => ⟨legPairs_eq_zip stops, legPairs_length stops⟩, ?_, ?_⟩
  · intro provider startAtMs stops h
    obtain ⟨htr, legs, hlegs, hlen⟩ := planLoop_ok_trace provider startAtMs stops 0 h
    exact ⟨htr, legs, hlegs, by rw [hlen, legPairs_length]⟩
  · intro provider startAtMs stops good bad rest2 e hpairs hgood hbad
    exact planLoop_error_trace provider startAtMs stops 0 good bad rest2 e hpairs hgood hbad

/-- The three stops of the C8 witness plan. -/
def c8Stops : List PlanStop :=
  [{ id := "A", location := ⟨0, 0⟩, arriveByMs := 0, dwellMinutes := 0 },
   { id := "B", location := ⟨1, 1⟩, arriveByMs := 1000, dwellMinutes := 5 },
   { id := "C", location := ⟨2, 2⟩, arriveByMs := 2000, dwellMinutes := 5 }]

/-- The C8 witness provider: every call fails. -/
def c8Provider : ProviderCall → Except String (List RouteOption) :=
  fun _ => .error "network down"

/-- C8 witness — the spec's 3-stop scenario with a failing first call: only
the A→B call is issued (B→C is never attempted) and the error is the
whole result. -/
theorem planner_call_sequence_witness :
    planLegs c8Provider 0 c8Stops
      = ([{ origin := ⟨0, 0⟩, destination := ⟨1, 1⟩, arriveByMs := 1000 }],
          .error "network down") :=
  planner_call_sequence.2.2 c8Provider 0 c8Stops []
    { origin := ⟨0, 0⟩, destination := ⟨1, 1⟩, arriveByMs := 1000 }
    [{ origin := ⟨1, 1⟩, destination := ⟨2, 2⟩, arriveByMs := 2000 }] "network down"
    rfl (by simp) rfl

end CatchIt
